import Mathlib

/-!
Shallow embedding of the content-addressable store in
`Godeps/_workspace/src/github.com/coreos/rocket/cas/cas.go` (package `cas`),
together with proofs about its key codec, key resolver, import pipeline and
store-open schema guard.

Modelling conventions:
* Go byte slices are `List Nat` (each entry a byte value);
* Go strings are `List Char` where character-level reasoning is needed
  (all strings involved are ASCII, so Go's byte indexing and slicing
  coincide with character indexing and slicing);
* a Go `panic` is modelled as `Option.none` / a dedicated `goPanic` error
  constructor, kept distinct from returned `error` values;
* external collaborators (file-type detection, decompression codecs,
  SHA-512, JSON marshalling, the appc manifest parser) are fields of a
  `Collab` structure: the pipeline under verification is parametric in
  them, exactly as the spec treats them as interface-boundary
  collaborators.
-/

set_option autoImplicit false
set_option maxRecDepth 8192

namespace Cas

/-! ## Key codec constants (cas.go lines 38-50) -/

/-- `hashPrefix = "sha512-"` (cas.go line 46). -/
def hashPrefix : String := "sha512-"

/-- `lenHash = sha512.Size` — the raw byte size of a SHA-512 digest, 64
(cas.go line 47). -/
def lenHash : Nat := 64

/-- `lenHashKey = (lenHash / 2) * 2` — half the digest length, in hex
characters (cas.go line 48). -/
def lenHashKey : Nat := (lenHash / 2) * 2

/-- `lenKey = len(hashPrefix) + lenHashKey` (cas.go line 49). -/
def lenKey : Nat := hashPrefix.length + lenHashKey

/-! ## Hexadecimal rendering (Go `fmt.Sprintf("%x", k)` on a byte slice) -/

/-- The sixteen lowercase hexadecimal digit characters, in value order. -/
def hexDigits : List Char := "0123456789abcdef".data

/-- The lowercase hex digit for a nibble value. -/
def hexDigit (n : Nat) : Char := hexDigits.getD (n % 16) '0'

/-- `true` iff `c` is a lowercase hexadecimal digit character. -/
def isLowerHex (c : Char) : Bool := hexDigits.contains c

/-- Two lowercase hex characters for one byte, high nibble first —
one byte of Go's `%x` formatting. -/
def byteToHex (b : Nat) : List Char := [hexDigit ((b / 16) % 16), hexDigit (b % 16)]

/-- `fmt.Sprintf("%x", k)` on a byte slice: the concatenation of the
two-character hex renderings of its bytes. -/
def hexOfBytes (k : List Nat) : List Char := (k.map byteToHex).flatten

/-! ## `keyToString` and `HashToKey` (cas.go lines 295-309) -/

/-- The characters of the key produced for a digest `k`:
`fmt.Sprintf("%s%x", hashPrefix, k)[0:lenKey]` (cas.go line 308).
Go slices the string at byte offsets; every character involved is ASCII,
so this is `List.take lenKey` on the character list. -/
def keyChars (k : List Nat) : List Char := (hashPrefix.data ++ hexOfBytes k).take lenKey

/-- `keyToString` (cas.go lines 304-309): panics — modelled as `none` —
unless the digest has exactly `lenHash` bytes, and otherwise returns the
prefixed, shortened hexadecimal key. -/
def keyToString (k : List Nat) : Option (List Char) :=
  if k.length = lenHash then some (keyChars k) else none

/-- `HashToKey` (cas.go lines 298-301): sums the hash — here the digest
bytes are passed directly — and converts with `keyToString`. -/
def HashToKey (digest : List Nat) : Option (List Char) := keyToString digest

/-! ### Basic facts about the codec -/

theorem length_byteToHex (b : Nat) : (byteToHex b).length = 2 := rfl

theorem length_hexOfBytes (k : List Nat) : (hexOfBytes k).length = 2 * k.length := by
  induction k with
  | nil => rfl
  | cons b bs ih =>
    simp [hexOfBytes, byteToHex] at ih ⊢
    omega

theorem hexDigit_mem (n : Nat) : hexDigit n ∈ hexDigits := by
  have h : n % 16 < hexDigits.length := Nat.mod_lt _ (by decide)
  rw [hexDigit, List.getD_eq_getElem _ _ h]
  exact List.getElem_mem _

theorem mem_hexOfBytes_isLowerHex (k : List Nat) :
    ∀ c ∈ hexOfBytes k, isLowerHex c = true := by
  intro c hc
  rcases List.mem_flatten.1 hc with ⟨l, hl, hcl⟩
  rcases List.mem_map.1 hl with ⟨b, _, rfl⟩
  have hmem : c ∈ hexDigits := by
    simp only [byteToHex, List.mem_cons, List.not_mem_nil, or_false] at hcl
    rcases hcl with h | h
    · exact h ▸ hexDigit_mem _
    · exact h ▸ hexDigit_mem _
  simpa [isLowerHex, List.contains] using List.elem_eq_true_of_mem hmem

theorem keyChars_eq (k : List Nat) :
    keyChars k = hashPrefix.data ++ (hexOfBytes k).take lenHashKey := by
  have h7 : hashPrefix.data.length = 7 := rfl
  have : lenKey = hashPrefix.data.length + lenHashKey := by
    simp [lenKey, h7]
    rfl
  rw [keyChars, this, List.take_append]

/-! ## Claim theorems for the key codec -/

/-- C1: for every digest of exactly 64 bytes (512 bits), `keyToString`
(and `HashToKey`) succeeds and returns `"sha512-"` followed by exactly
`lenHashKey` lowercase hexadecimal characters that are the first half of
the digest's full 128-character hex representation, so every produced key
has the same fixed total length `lenKey`. -/
theorem c1_keyToString_format (k : List Nat) (hk : k.length = lenHash) :
    keyToString k = some (keyChars k) ∧
    HashToKey k = some (keyChars k) ∧
    keyChars k = hashPrefix.data ++ (hexOfBytes k).take lenHashKey ∧
    (hexOfBytes k).length = 128 ∧
    2 * lenHashKey = (hexOfBytes k).length ∧
    ((hexOfBytes k).take lenHashKey).length = lenHashKey ∧
    ((hexOfBytes k).take lenHashKey).all isLowerHex = true ∧
    (keyChars k).length = lenKey := by
  have hlen : (hexOfBytes k).length = 128 := by
    rw [length_hexOfBytes, hk]; rfl
  have hkey : keyToString k = some (keyChars k) := by
    simp [keyToString, hk]
  refine ⟨hkey, hkey, keyChars_eq k, hlen, by rw [hlen]; rfl, ?_, ?_, ?_⟩
  · rw [List.length_take, hlen]; rfl
  · rw [List.all_eq_true]
    intro c hc
    exact mem_hexOfBytes_isLowerHex k c (List.mem_of_mem_take hc)
  · rw [keyChars, List.length_take, List.length_append, hlen]; rfl

/-- Witness for C1 at the all-zero 64-byte digest. -/
theorem c1_keyToString_format_witness :
    (List.replicate 64 0).length = lenHash ∧
    (keyToString (List.replicate 64 0) = some (keyChars (List.replicate 64 0)) ∧
     HashToKey (List.replicate 64 0) = some (keyChars (List.replicate 64 0)) ∧
     keyChars (List.replicate 64 0) =
       hashPrefix.data ++ (hexOfBytes (List.replicate 64 0)).take lenHashKey ∧
     (hexOfBytes (List.replicate 64 0)).length = 128 ∧
     2 * lenHashKey = (hexOfBytes (List.replicate 64 0)).length ∧
     ((hexOfBytes (List.replicate 64 0)).take lenHashKey).length = lenHashKey ∧
     ((hexOfBytes (List.replicate 64 0)).take lenHashKey).all isLowerHex = true ∧
     (keyChars (List.replicate 64 0)).length = lenKey) :=
  ⟨by decide, c1_keyToString_format (List.replicate 64 0) (by decide)⟩

/-- C8: `keyToString` — and hence `HashToKey`, which merely sums the hash
and delegates — panics (modelled as `none`) exactly when the input byte
slice's length differs from `lenHash` (64 bytes, the 512-bit width); it
never returns an error value for such inputs. -/
theorem c8_keyToString_panics_on_bad_width (k : List Nat) :
    (keyToString k = none ↔ k.length ≠ lenHash) ∧ HashToKey k = keyToString k := by
  refine ⟨⟨fun h hlen => ?_, fun h => ?_⟩, rfl⟩
  · rw [keyToString, if_pos hlen] at h
    cases h
  · rw [keyToString, if_neg h]

/-- Witness for C8 at the one-byte digest `[0]`. -/
theorem c8_keyToString_panics_on_bad_width_witness :
    keyToString [0] = none ∧ HashToKey [0] = keyToString [0] :=
  ⟨(c8_keyToString_panics_on_bad_width [0]).1.2 (by decide),
   (c8_keyToString_panics_on_bad_width [0]).2⟩

/-! ## `ResolveKey` (cas.go lines 134-159)

The blob namespace's key set is modelled as the list of stored keys, in the
enumeration order of diskv's `KeysPrefix`. -/

/-- The errors `ResolveKey` can return: `fmt.Errorf("no keys found")` and
`fmt.Errorf("ambiguous key: %q", key)` with the key used for the lookup. -/
inductive ResolveError where
  | noKeysFound
  | ambiguousKey (key : List Char)
  deriving DecidableEq, Repr

/-- The truncation at the top of `ResolveKey` (cas.go lines 138-140):
`if len(key) > lenKey { key = key[:lenKey] }`. -/
def normalizeKey (key : List Char) : List Char :=
  if key.length > lenKey then key.take lenKey else key

/-- The `for k = range ds.stores[blobType].KeysPrefix(key, cancel)` loop of
`ResolveKey` (cas.go lines 145-151): walk the stored keys in enumeration
order, count those having `key` as a prefix and remember the last one seen;
as soon as the count exceeds one, close the cancel channel and break, so no
later stored key is examined. Returns the final `keyCount` and `k`. -/
def resolveLoop (key : List Char) : List (List Char) → Nat → List Char → Nat × List Char
  | [], keyCount, k => (keyCount, k)
  | key' :: keys, keyCount, k =>
    if key.isPrefixOf key' then
      if keyCount + 1 > 1 then (keyCount + 1, key')
      else resolveLoop key keys (keyCount + 1) key'
    else resolveLoop key keys keyCount k

/-- `ResolveKey` (cas.go lines 137-159): truncate over-long input, scan the
blob namespace's keys for prefix matches with early cancellation, then
return `no keys found` on zero matches, the ambiguous-key error on more
than one, and the unique matching key otherwise. -/
def ResolveKey (storedKeys : List (List Char)) (key : List Char) :
    Except ResolveError (List Char) :=
  let key := normalizeKey key
  let r := resolveLoop key storedKeys 0 []
  if r.1 = 0 then .error .noKeysFound
  else if r.1 ≠ 1 then .error (.ambiguousKey key)
  else .ok r.2

/-! ### Facts about the resolver loop -/

/-- The loop's count caps at two: reaching a second match returns at once. -/
theorem resolveLoop_early_cancel (key : List Char) (l1 l2 : List (List Char)) :
    2 ≤ (resolveLoop key l1 0 []).1 →
    resolveLoop key (l1 ++ l2) 0 [] = resolveLoop key l1 0 [] := by
  suffices h : ∀ (l1 : List (List Char)) (c : Nat) (k : List Char), c ≤ 1 →
      2 ≤ (resolveLoop key l1 c k).1 →
      resolveLoop key (l1 ++ l2) c k = resolveLoop key l1 c k by
    exact h l1 0 [] (by omega)
  intro l1
  induction l1 with
  | nil =>
    intro c k hc h2
    simp [resolveLoop] at h2
    omega
  | cons key' keys ih =>
    intro c k hc h2
    by_cases hp : key.isPrefixOf key'
    · by_cases hgt : c + 1 > 1
      · simp [resolveLoop, hp, hgt]
      · rw [resolveLoop, if_pos hp, if_neg hgt] at h2 ⊢
        rw [List.cons_append, resolveLoop, if_pos hp, if_neg hgt]
        exact ih (c + 1) key' (by omega) h2
    · rw [resolveLoop, if_neg hp] at h2 ⊢
      rw [List.cons_append, resolveLoop, if_neg hp]
      exact ih c k hc h2

/-- Relation between the loop and the list of prefix matches: the count is
the number of matches capped at two, and if there is exactly one match the
loop's `k` is that match. -/
theorem resolveLoop_spec (key : List Char) (l : List (List Char)) :
    (resolveLoop key l 0 []).1 = min (l.countP (key.isPrefixOf ·)) 2 ∧
    (∀ m, l.filter (key.isPrefixOf ·) = [m] → (resolveLoop key l 0 []).2 = m) := by
  suffices h : ∀ (l : List (List Char)) (c : Nat) (k : List Char), c ≤ 1 →
      (resolveLoop key l c k).1 = min (c + l.countP (key.isPrefixOf ·)) 2 ∧
      (c = 1 → l.countP (key.isPrefixOf ·) = 0 → (resolveLoop key l c k).2 = k) ∧
      (c = 0 → ∀ m, l.filter (key.isPrefixOf ·) = [m] → (resolveLoop key l c k).2 = m) by
    obtain ⟨h1, _, h3⟩ := h l 0 [] (by omega)
    exact ⟨by simpa using h1, h3 rfl⟩
  intro l
  induction l with
  | nil =>
    intro c k hc
    refine ⟨by simp [resolveLoop]; omega, fun _ _ => rfl, fun _ m hm => by simp at hm⟩
  | cons key' keys ih =>
    intro c k hc
    by_cases hp : key.isPrefixOf key'
    · by_cases hgt : c + 1 > 1
      · refine ⟨?_, ?_, ?_⟩
        · simp [resolveLoop, hp, hgt, List.countP_cons, hp]
          omega
        · intro hc1 hcnt
          simp [List.countP_cons, hp] at hcnt
        · intro hc0
          omega
      · obtain ⟨ih1, ih2, _⟩ := ih (c + 1) key' (by omega)
        refine ⟨?_, ?_, ?_⟩
        · rw [resolveLoop, if_pos hp, if_neg hgt, ih1]
          simp [List.countP_cons, hp]
          omega
        · intro hc1
          omega
        · intro hc0 m hm
          rw [List.filter_cons, if_pos hp] at hm
          have hnil : keys.filter (key.isPrefixOf ·) = [] := (List.cons_eq_cons.1 hm).2.symm ▸ rfl
          have hm1 : key' = m := (List.cons_eq_cons.1 hm).1
          have hcnt : keys.countP (key.isPrefixOf ·) = 0 := by
            rw [List.countP_eq_length_filter, hnil]
            rfl
          rw [resolveLoop, if_pos hp, if_neg hgt]
          rw [ih2 (by omega) hcnt]
          exact hm1
    · obtain ⟨ih1, ih2, ih3⟩ := ih c k hc
      refine ⟨?_, ?_, ?_⟩
      · rw [resolveLoop, if_neg hp, ih1]
        simp [List.countP_cons, hp]
      · intro hc1 hcnt
        rw [List.countP_cons, if_neg hp] at hcnt
        rw [resolveLoop, if_neg hp]
        exact ih2 hc1 (by omega)
      · intro hc0 m hm
        rw [List.filter_cons, if_neg hp] at hm
        rw [resolveLoop, if_neg hp]
        exact ih3 hc0 m hm

/-- `ResolveKey` looks at its input only through `normalizeKey`. -/
theorem ResolveKey_congr_normalize (storedKeys : List (List Char)) (a b : List Char)
    (h : normalizeKey a = normalizeKey b) :
    ResolveKey storedKeys a = ResolveKey storedKeys b := by
  simp only [ResolveKey, h]

/-! ## Claim theorems for the resolver -/

/-- C4 (amended): for every input string, `ResolveKey` returns the
`no keys found` error when zero stored keys have the normalized input as a
prefix, returns the key when exactly one matches, and returns the ambiguous
error carrying the normalized (truncated-to-`lenKey`) partial key when two
or more match; the scan stops as soon as the second match is observed, so
the outcome is unchanged by any stored keys enumerated after it. -/
theorem c4_resolveKey_outcomes (storedKeys : List (List Char)) (key : List Char) :
    (storedKeys.countP ((normalizeKey key).isPrefixOf ·) = 0 →
      ResolveKey storedKeys key = .error .noKeysFound) ∧
    (∀ m, storedKeys.filter ((normalizeKey key).isPrefixOf ·) = [m] →
      ResolveKey storedKeys key = .ok m) ∧
    (2 ≤ storedKeys.countP ((normalizeKey key).isPrefixOf ·) →
      ResolveKey storedKeys key = .error (.ambiguousKey (normalizeKey key))) ∧
    (∀ l1 l2, storedKeys = l1 ++ l2 → 2 ≤ (resolveLoop (normalizeKey key) l1 0 []).1 →
      ResolveKey storedKeys key = ResolveKey l1 key) := by
  obtain ⟨hcount, hone⟩ := resolveLoop_spec (normalizeKey key) storedKeys
  refine ⟨?_, ?_, ?_, ?_⟩
  · intro h0
    rw [ResolveKey]
    simp only [hcount, h0]
    rfl
  · intro m hm
    have hcnt1 : storedKeys.countP ((normalizeKey key).isPrefixOf ·) = 1 := by
      rw [List.countP_eq_length_filter, hm]
      rfl
    rw [ResolveKey]
    simp only [hcount, hcnt1, hone m hm]
    rfl
  · intro h2
    rw [ResolveKey]
    have : min (storedKeys.countP ((normalizeKey key).isPrefixOf ·)) 2 = 2 := by omega
    simp only [hcount, this]
    rfl
  · intro l1 l2 hsplit h2
    rw [ResolveKey, ResolveKey, hsplit, resolveLoop_early_cancel _ _ _ h2]

/-- Witness for C4 on three one-element-at-a-time concrete stores. -/
theorem c4_resolveKey_outcomes_witness :
    ResolveKey [] ['a'] = .error .noKeysFound ∧
    ResolveKey [['a', 'b']] ['a'] = .ok ['a', 'b'] ∧
    ResolveKey [['a', 'b'], ['a', 'c']] ['a'] = .error (.ambiguousKey ['a']) ∧
    ResolveKey [['a', 'b'], ['a', 'c'], ['a', 'd']] ['a'] =
      ResolveKey [['a', 'b'], ['a', 'c']] ['a'] :=
  ⟨(c4_resolveKey_outcomes [] ['a']).1 (by decide),
   (c4_resolveKey_outcomes [['a', 'b']] ['a']).2.1 ['a', 'b'] (by decide),
   (c4_resolveKey_outcomes [['a', 'b'], ['a', 'c']] ['a']).2.2.1 (by decide),
   (c4_resolveKey_outcomes [['a', 'b'], ['a', 'c'], ['a', 'd']] ['a']).2.2.2
     [['a', 'b'], ['a', 'c']] [['a', 'd']] rfl (by decide)⟩

/-- C4 counterexample to the claim as stated: with two stored 72-character
keys sharing their first 71 characters and an input of 72 characters, the
ambiguous error carries the truncated 71-character key, not the original
input. -/
theorem c4_resolveKey_counterexample :
    ResolveKey [List.replicate 72 'a', List.replicate 71 'a' ++ ['b']]
        (List.replicate 72 'a')
      = .error (.ambiguousKey (List.replicate 71 'a')) ∧
    List.replicate 71 'a' ≠ List.replicate 72 'a' := by
  constructor
  · rfl
  · intro h
    have := congrArg List.length h
    simp at this

/-- C5: resolving a stored-length full key with any extra suffix appended
behaves identically to resolving the full key itself: input longer than
`lenKey` is truncated to `lenKey` before the prefix lookup, so the key the
lookup uses is exactly `fullKey`. -/
theorem c5_truncation_safety (storedKeys : List (List Char)) (fullKey suffix : List Char)
    (h : fullKey.length = lenKey) :
    ResolveKey storedKeys (fullKey ++ suffix) = ResolveKey storedKeys fullKey ∧
    normalizeKey (fullKey ++ suffix) = fullKey := by
  have hnorm : normalizeKey (fullKey ++ suffix) = fullKey := by
    rw [normalizeKey]
    by_cases hs : suffix = []
    · subst hs
      rw [if_neg (by simp [h])]
      exact List.append_nil fullKey
    · rw [if_pos (by simp [h, List.length_pos.2 hs])]
      rw [← h, List.take_left]
  refine ⟨?_, hnorm⟩
  apply ResolveKey_congr_normalize
  rw [hnorm, normalizeKey, if_neg (by simp [h])]

/-- Witness for C5 at a concrete 71-character key with garbage appended. -/
theorem c5_truncation_safety_witness :
    (List.replicate 71 'a').length = lenKey ∧
    (ResolveKey [] (List.replicate 71 'a' ++ ['x']) = ResolveKey [] (List.replicate 71 'a') ∧
     normalizeKey (List.replicate 71 'a' ++ ['x']) = List.replicate 71 'a') :=
  ⟨by decide, c5_truncation_safety [] (List.replicate 71 'a') ['x'] (by decide)⟩

/-- C10: `ResolveKey` does not validate the input's format; any string is
used directly as a prefix. In particular the empty string is a prefix of
every stored key, so on an empty store it yields the `no keys found` error,
on a one-key store it returns that key, and on a store of two or more keys
it yields the ambiguous error carrying the empty key. -/
theorem c10_resolveKey_empty_input (storedKeys : List (List Char)) :
    storedKeys.countP (([] : List Char).isPrefixOf ·) = storedKeys.length ∧
    (storedKeys = [] → ResolveKey storedKeys [] = .error .noKeysFound) ∧
    (∀ k, storedKeys = [k] → ResolveKey storedKeys [] = .ok k) ∧
    (2 ≤ storedKeys.length → ResolveKey storedKeys [] = .error (.ambiguousKey [])) := by
  have hpre : ∀ k : List Char, ([] : List Char).isPrefixOf k = true :=
    fun _ => List.isPrefixOf_nil_left
  have hnorm : normalizeKey ([] : List Char) = [] := rfl
  have hcountall : storedKeys.countP (([] : List Char).isPrefixOf ·) = storedKeys.length :=
    List.countP_eq_length.2 fun k _ => hpre k
  obtain ⟨hcount, hone⟩ := resolveLoop_spec (normalizeKey []) storedKeys
  rw [hnorm] at hcount hone
  refine ⟨hcountall, ?_, ?_, ?_⟩
  · intro h
    subst h
    rfl
  · intro k hk
    subst hk
    have hfil : [k].filter (([] : List Char).isPrefixOf ·) = [k] := by
      rw [List.filter_cons, if_pos (hpre k)]
      rfl
    have hcnt1 : [k].countP (([] : List Char).isPrefixOf ·) = 1 := by
      rw [List.countP_eq_length_filter, hfil]
      rfl
    rw [ResolveKey]
    simp only [hnorm, hcount, hcnt1, hone k hfil]
    rfl
  · intro h2
    have hmin : min (storedKeys.countP (([] : List Char).isPrefixOf ·)) 2 = 2 := by
      rw [hcountall]
      omega
    rw [ResolveKey]
    simp only [hnorm, hcount, hmin]
    rfl

/-- Witness for C10 on empty, one-key and two-key concrete stores. -/
theorem c10_resolveKey_empty_input_witness :
    ResolveKey [] [] = .error .noKeysFound ∧
    ResolveKey [['a']] [] = .ok ['a'] ∧
    ResolveKey [['a'], ['b']] [] = .error (.ambiguousKey []) :=
  ⟨(c10_resolveKey_empty_input []).2.1 rfl,
   (c10_resolveKey_empty_input [['a']]).2.2.1 ['a'] rfl,
   (c10_resolveKey_empty_input [['a'], ['b']]).2.2.2 (by decide)⟩

/-! ## The import pipeline `WriteACI` (cas.go lines 169-237)

The input reader is a `Stream`: the byte sequence it will yield, plus an
optional read error the underlying reader reports after those bytes
(`none` means the stream ends with a clean `io.EOF`). -/

/-- An `io.Reader`: the bytes it yields, then either clean EOF
(`readErr = none`) or a read error. -/
structure Stream where
  bytes : List Nat
  readErr : Option String
  deriving DecidableEq, Repr

/-- Outcome of `bufio.Reader.Peek(512)` besides the peeked bytes:
`none` for a full 512-byte peek, `eof` when the stream ended early, and
`other` for an underlying read error within the first 512 bytes. -/
inductive PeekErr where
  | eof
  | other (e : String)
  deriving DecidableEq, Repr

/-- `br.Peek(512)` error result (cas.go line 175): a stream shorter than
512 bytes surfaces its read error if it has one, else `io.EOF`. The peeked
bytes are `s.bytes.take 512` in every non-`other` case. -/
def peekErr (s : Stream) : Option PeekErr :=
  if 512 ≤ s.bytes.length then none
  else
    match s.readErr with
    | some e => some (.other e)
    | none => some .eof

/-- Compression kinds returned by `aci.DetectFileType` (external
collaborator from the appc spec package). -/
inductive FileType where
  | gzip
  | bzip2
  | xz
  | tar
  | unknown
  deriving DecidableEq, Repr

/-- An appc image manifest as far as this file observes it: `im.Name`
(the app name) is all `WriteACI` reads from it. -/
structure ImageManifest where
  name : List Char
  deriving DecidableEq, Repr

/-- `ACIInfo` row written by `WriteACI` (blob key, app name, import time). -/
structure ACIInfo where
  blobKey : List Char
  appName : List Char
  importTime : Nat
  deriving DecidableEq, Repr

/-- The on-disk state `WriteACI` mutates: the `blob` and `imageManifest`
diskv namespaces (association lists keyed by the store key, most recent
write first) and the `aciinfo` db table. -/
structure StoreState where
  blobs : List (List Char × List Nat)
  manifests : List (List Char × List Nat)
  aciinfos : List ACIInfo
  deriving DecidableEq, Repr

/-- The external collaborators `WriteACI` calls: filetype detection,
decompression, SHA-512, manifest extraction from the canonical tar, and
JSON (un)marshalling of manifests. Determinism of each is inherent: they
are Lean functions. -/
structure Collab where
  detectFileType : List Nat → Except String FileType
  decompress : FileType → List Nat → Except String (List Nat)
  sha512sum : List Nat → List Nat
  manifestFromImage : List Nat → Except String ImageManifest
  marshal : ImageManifest → List Nat
  unmarshal : List Nat → Except String ImageManifest

/-- Injected failures of the three commit steps (blob import, manifest
write, ACIInfo db write): `some e` means the step fails with error `e`. -/
structure Faults where
  importFault : Option String
  manifestFault : Option String
  dbFault : Option String
  deriving DecidableEq, Repr

/-- No injected failures. -/
def noFaults : Faults := ⟨none, none, none⟩

/-- The classified errors `WriteACI` returns, one per `fmt.Errorf` wrap
site, plus `goPanic` for a Go panic escaping `keyToString` (which is not a
returned error). -/
inductive StoreError where
  | readingHeader (e : String)
  | detecting (e : String)
  | decompressing (e : String)
  | copying (e : String)
  | extractingManifest (e : String)
  | importing (e : String)
  | importingManifest (e : String)
  | writingACIInfo (e : String)
  | goPanic
  deriving DecidableEq, Repr

/-- The part of `WriteACI` (cas.go lines 182-236) after the 512-byte peek:
detection, decompression, tee-hash copy, manifest extraction, key
assignment and the three-step commit. Returns the result (`ok key` or a
classified error) together with the store state after the call, since Go's
early `return "", err` leaves already-performed writes in place.

Step by step against the source:
* `aci.DetectFileType` on the peeked bytes `hd` (line 182);
* `decompress` obtains the decompressed contents of the **full** stream —
  the `bufio.Reader` still holds the peeked prefix (line 186);
* `io.Copy` tees the decompressed bytes into the temp file and the SHA-512
  state; a pending read error of the underlying stream surfaces here
  (lines 193-201);
* `aci.ManifestFromImage` parses the manifest from the temp file, whose
  contents are the canonical bytes (line 202);
* `HashToKey` = `keyToString` of the finished digest (line 211; a digest
  of the wrong width would panic);
* commit order: blob `Import`, manifest `Write`, `WriteACIInfo` db row,
  each returning its wrap on failure (lines 212-235). -/
def writeACIBody (c : Collab) (f : Faults) (ds : StoreState) (now : Nat)
    (hd : List Nat) (s : Stream) : Except StoreError (List Char) × StoreState :=
  match c.detectFileType hd with
    | .error e => (.error (.detecting e), ds)
    | .ok typ =>
      match c.decompress typ s.bytes with
      | .error e => (.error (.decompressing e), ds)
      | .ok canonical =>
        match s.readErr with
        | some e => (.error (.copying e), ds)
        | none =>
          let h := c.sha512sum canonical
          match c.manifestFromImage canonical with
          | .error e => (.error (.extractingManifest e), ds)
          | .ok im =>
            match keyToString h with
            | none => (.error .goPanic, ds)
            | some key =>
              match f.importFault with
              | some e => (.error (.importing e), ds)
              | none =>
                let ds1 : StoreState := { ds with blobs := (key, canonical) :: ds.blobs }
                let imj := c.marshal im
                match f.manifestFault with
                | some e => (.error (.importingManifest e), ds1)
                | none =>
                  let ds2 : StoreState := { ds1 with manifests := (key, imj) :: ds1.manifests }
                  match f.dbFault with
                  | some e => (.error (.writingACIInfo e), ds2)
                  | none =>
                    (.ok key,
                     { ds2 with aciinfos := ds2.aciinfos ++ [⟨key, im.name, now⟩] })

/-- `WriteACI` (cas.go lines 172-237), assembled from the peek phase and
`writeACIBody`: peek the first 512 bytes, returning the header-read wrap on
a non-EOF peek error and falling through (on `nil` or `io.EOF`) to the rest
of the pipeline with the peeked bytes. -/
def WriteACI (c : Collab) (f : Faults) (ds : StoreState) (now : Nat) (s : Stream) :
    Except StoreError (List Char) × StoreState :=
  let hd := s.bytes.take 512
  match peekErr s with
  | some (.other e) => (.error (.readingHeader e), ds)
  | _ => writeACIBody c f ds now hd s

/-- `ReadStream` (cas.go lines 161-163): read a blob from the `blob`
namespace; `none` models diskv's not-found error. -/
def ReadStream (ds : StoreState) (key : List Char) : Option (List Nat) :=
  ds.blobs.lookup key

/-- `GetImageManifest` (cas.go lines 261-271): read the stored manifest
bytes for `key` and JSON-unmarshal them, wrapping each failure. -/
def GetImageManifest (c : Collab) (ds : StoreState) (key : List Char) :
    Except String ImageManifest :=
  match ds.manifests.lookup key with
  | none => .error "error retrieving image manifest"
  | some imj =>
    match c.unmarshal imj with
    | .error _ => .error "error unmarshalling image manifest"
    | .ok im => .ok im

/-! ### Facts about the pipeline -/

/-- A clean stream's peek result is a full peek or `io.EOF`, never another
error. -/
theorem peekErr_clean (s : Stream) (h : s.readErr = none) :
    peekErr s = none ∨ peekErr s = some .eof := by
  rw [peekErr]
  by_cases h512 : 512 ≤ s.bytes.length
  · exact Or.inl (if_pos h512)
  · rw [if_neg h512, h]
    exact Or.inr rfl

/-- On a clean or EOF peek, `WriteACI` runs the post-peek pipeline on the
peeked bytes. -/
theorem WriteACI_eq_body (c : Collab) (f : Faults) (ds : StoreState) (now : Nat)
    (s : Stream) (h : ∀ e, peekErr s ≠ some (.other e)) :
    WriteACI c f ds now s = writeACIBody c f ds now (s.bytes.take 512) s := by
  rw [WriteACI]
  rcases hp : peekErr s with _ | pe
  · rfl
  · cases pe with
    | eof => rfl
    | other e => exact absurd hp (h e)

/-- Inversion of a successful post-peek run: the returned key is
`keyToString` of the SHA-512 of the decompressed contents of the full
input stream. -/
theorem writeACIBody_ok_shape (c : Collab) (f : Faults) (ds : StoreState) (now : Nat)
    (hd : List Nat) (s : Stream) (key : List Char)
    (h : (writeACIBody c f ds now hd s).1 = .ok key) :
    ∃ typ canonical,
      c.detectFileType hd = .ok typ ∧
      c.decompress typ s.bytes = .ok canonical ∧
      keyToString (c.sha512sum canonical) = some key := by
  simp only [writeACIBody] at h
  rcases hdet : c.detectFileType hd with e | typ <;> rw [hdet] at h <;> try simp at h
  rcases hdec : c.decompress typ s.bytes with e | canonical <;> rw [hdec] at h <;>
    try simp at h
  rcases hre : s.readErr with _ | e <;> rw [hre] at h <;> try simp at h
  rcases hman : c.manifestFromImage canonical with e | im <;> rw [hman] at h <;>
    try simp at h
  rcases hkey : keyToString (c.sha512sum canonical) with _ | key' <;> rw [hkey] at h <;>
    try simp at h
  rcases himp : f.importFault with _ | e <;> rw [himp] at h <;> try simp at h
  rcases hmf : f.manifestFault with _ | e <;> rw [hmf] at h <;> try simp at h
  rcases hdb : f.dbFault with _ | e <;> rw [hdb] at h <;> try simp at h
  exact ⟨typ, canonical, rfl, hdec, by rw [hkey, h]⟩

/-- Inversion of a successful import through the peek phase as well. -/
theorem writeACI_ok_shape (c : Collab) (f : Faults) (ds : StoreState) (now : Nat)
    (s : Stream) (key : List Char) (h : (WriteACI c f ds now s).1 = .ok key) :
    ∃ typ canonical,
      c.detectFileType (s.bytes.take 512) = .ok typ ∧
      c.decompress typ s.bytes = .ok canonical ∧
      keyToString (c.sha512sum canonical) = some key := by
  rcases hp : peekErr s with _ | pe
  · rw [WriteACI_eq_body c f ds now s (by simp [hp])] at h
    exact writeACIBody_ok_shape _ _ _ _ _ _ _ h
  · cases pe with
    | eof =>
      rw [WriteACI_eq_body c f ds now s (by simp [hp])] at h
      exact writeACIBody_ok_shape _ _ _ _ _ _ _ h
    | other e =>
      simp only [WriteACI, hp] at h
      simp at h

/-! ## Claim theorems for the pipeline -/

/-- C2: if two input streams (possibly wrapped in different supported
compressions) decompress to the same canonical contents `B`, then any two
successful `WriteACI` runs on them — even against different store states,
times and fault environments — return the same key. -/
theorem c2_writeACI_deterministic (c : Collab) (f1 f2 : Faults) (ds1 ds2 : StoreState)
    (n1 n2 : Nat) (s1 s2 : Stream) (t1 t2 : FileType) (B : List Nat) (k1 k2 : List Char)
    (h1 : (WriteACI c f1 ds1 n1 s1).1 = .ok k1)
    (h2 : (WriteACI c f2 ds2 n2 s2).1 = .ok k2)
    (hdet1 : c.detectFileType (s1.bytes.take 512) = .ok t1)
    (hdec1 : c.decompress t1 s1.bytes = .ok B)
    (hdet2 : c.detectFileType (s2.bytes.take 512) = .ok t2)
    (hdec2 : c.decompress t2 s2.bytes = .ok B) :
    k1 = k2 := by
  obtain ⟨u1, c1, hu1, hc1, hk1⟩ := writeACI_ok_shape c f1 ds1 n1 s1 k1 h1
  obtain ⟨u2, c2', hu2, hc2, hk2⟩ := writeACI_ok_shape c f2 ds2 n2 s2 k2 h2
  have ht1 : u1 = t1 := Except.ok.inj (hu1 ▸ hdet1)
  have ht2 : u2 = t2 := Except.ok.inj (hu2 ▸ hdet2)
  subst ht1 ht2
  have hb1 : c1 = B := Except.ok.inj (hc1 ▸ hdec1)
  have hb2 : c2' = B := Except.ok.inj (hc2 ▸ hdec2)
  subst hb1 hb2
  exact Option.some.inj (hk1 ▸ hk2)

/-- Concrete collaborators used only to instantiate theorems at concrete
inputs: detection reads the first byte (1 ↦ gzip, else tar), gzip strips a
one-byte header, tar is the identity, the digest pads the content with
zeros to 64 bytes, and the manifest of every image is `example-app`. -/
def cW : Collab where
  detectFileType := fun hd => .ok (if hd.headD 0 = 1 then .gzip else .tar)
  decompress := fun typ b => .ok (match typ with | .gzip => b.tail | _ => b)
  sha512sum := fun b => (b ++ List.replicate 64 0).take 64
  manifestFromImage := fun _ => .ok ⟨"example-app".data⟩
  marshal := fun _ => []
  unmarshal := fun _ => .ok ⟨"example-app".data⟩

/-- The empty store state. -/
def st0 : StoreState := ⟨[], [], []⟩

/-- Witness for C2: a one-byte-header "gzip" stream and a bare "tar" stream
with the same canonical contents `[7, 7]` import under the same key. -/
theorem c2_writeACI_deterministic_witness :
    (WriteACI cW noFaults st0 0 ⟨[1, 7, 7], none⟩).1 = .ok (keyChars (cW.sha512sum [7, 7])) ∧
    (WriteACI cW noFaults st0 0 ⟨[7, 7], none⟩).1 = .ok (keyChars (cW.sha512sum [7, 7])) ∧
    keyChars (cW.sha512sum [7, 7]) = keyChars (cW.sha512sum [7, 7]) := by
  have h1 : (WriteACI cW noFaults st0 0 ⟨[1, 7, 7], none⟩).1 =
      .ok (keyChars (cW.sha512sum [7, 7])) := rfl
  have h2 : (WriteACI cW noFaults st0 0 ⟨[7, 7], none⟩).1 =
      .ok (keyChars (cW.sha512sum [7, 7])) := rfl
  exact ⟨h1, h2,
    c2_writeACI_deterministic cW noFaults noFaults st0 st0 0 0
      ⟨[1, 7, 7], none⟩ ⟨[7, 7], none⟩ .gzip .tar [7, 7] _ _ h1 h2 rfl rfl rfl rfl⟩

/-- C9: in `WriteACI`, end-of-stream while peeking the 512-byte prefix is
not an error: on a stream shorter than 512 bytes with no read error the
peek reports `io.EOF`, the pipeline falls through to detection on the
partial peeked bytes (which are the whole stream), and the full stream —
peeked prefix included — is what gets decompressed and hashed; whereas a
non-EOF read error within the prefix makes `WriteACI` return the
header-read classified error. -/
theorem c9_peek_eof_tolerated (c : Collab) (f : Faults) (ds : StoreState) (now : Nat)
    (s : Stream) (hshort : s.bytes.length < 512) :
    (∀ e, s.readErr = some e →
       WriteACI c f ds now s = (.error (.readingHeader e), ds)) ∧
    (s.readErr = none →
       peekErr s = some .eof ∧
       s.bytes.take 512 = s.bytes ∧
       WriteACI c f ds now s = writeACIBody c f ds now s.bytes s ∧
       (∀ key, (WriteACI c f ds now s).1 = .ok key →
          ∃ typ canonical,
            c.detectFileType s.bytes = .ok typ ∧
            c.decompress typ s.bytes = .ok canonical ∧
            keyToString (c.sha512sum canonical) = some key)) := by
  have htake : s.bytes.take 512 = s.bytes :=
    List.take_of_length_le (Nat.le_of_lt hshort)
  constructor
  · intro e he
    have hp : peekErr s = some (.other e) := by
      rw [peekErr, if_neg (by omega), he]
    simp only [WriteACI, hp]
  · intro hclean
    have hp : peekErr s = some .eof := by
      rw [peekErr, if_neg (by omega), hclean]
    have hbody : WriteACI c f ds now s = writeACIBody c f ds now s.bytes s := by
      rw [WriteACI_eq_body c f ds now s (by simp [hp]), htake]
    refine ⟨hp, htake, hbody, fun key hkey => ?_⟩
    obtain ⟨typ, canonical, h1, h2, h3⟩ := writeACI_ok_shape c f ds now s key hkey
    exact ⟨typ, canonical, htake ▸ h1, h2, h3⟩

/-- Witness for C9 at a three-byte stream: the clean case falls through to
the body and the erroring case returns the header wrap. -/
theorem c9_peek_eof_tolerated_witness :
    WriteACI cW noFaults st0 0 ⟨[0, 7, 7], some "boom"⟩ =
      (.error (.readingHeader "boom"), st0) ∧
    peekErr ⟨[0, 7, 7], none⟩ = some .eof ∧
    WriteACI cW noFaults st0 0 ⟨[0, 7, 7], none⟩ =
      writeACIBody cW noFaults st0 0 [0, 7, 7] (⟨[0, 7, 7], none⟩ : Stream) :=
  ⟨(c9_peek_eof_tolerated cW noFaults st0 0 ⟨[0, 7, 7], some "boom"⟩ (by decide)).1
      "boom" rfl,
   ((c9_peek_eof_tolerated cW noFaults st0 0 ⟨[0, 7, 7], none⟩ (by decide)).2 rfl).1,
   ((c9_peek_eof_tolerated cW noFaults st0 0 ⟨[0, 7, 7], none⟩ (by decide)).2 rfl).2.2.1⟩

/-- C3 (amended): importing a gzip-compressed archive with canonical tar
bytes `B` and manifest app name `example-app` succeeds with key
`"sha512-"` + the first `lenHashKey` = 64 (not 32) hex characters of
sha512(`B`); afterwards reading the blob under that key returns exactly
`B`, and the manifest read under it has app name `example-app`. -/
theorem c3_gzip_import_scenario (c : Collab) (ds : StoreState) (now : Nat) (s : Stream)
    (B : List Nat) (im : ImageManifest)
    (hclean : s.readErr = none)
    (hdet : c.detectFileType (s.bytes.take 512) = .ok .gzip)
    (hdec : c.decompress .gzip s.bytes = .ok B)
    (hman : c.manifestFromImage B = .ok im)
    (hname : im.name = "example-app".data)
    (hlen : (c.sha512sum B).length = lenHash)
    (hround : c.unmarshal (c.marshal im) = .ok im) :
    (WriteACI c noFaults ds now s).1 = .ok (keyChars (c.sha512sum B)) ∧
    keyChars (c.sha512sum B) =
      hashPrefix.data ++ (hexOfBytes (c.sha512sum B)).take lenHashKey ∧
    lenHashKey = 64 ∧
    ReadStream (WriteACI c noFaults ds now s).2 (keyChars (c.sha512sum B)) = some B ∧
    GetImageManifest c (WriteACI c noFaults ds now s).2 (keyChars (c.sha512sum B)) =
      .ok im ∧
    im.name = "example-app".data := by
  have hpk : ∀ e, peekErr s ≠ some (.other e) := by
    rcases peekErr_clean s hclean with hp | hp <;> simp [hp]
  have hks : keyToString (c.sha512sum B) = some (keyChars (c.sha512sum B)) := by
    rw [keyToString, if_pos hlen]
  have hrun : WriteACI c noFaults ds now s =
      (.ok (keyChars (c.sha512sum B)),
       ⟨(keyChars (c.sha512sum B), B) :: ds.blobs,
        (keyChars (c.sha512sum B), c.marshal im) :: ds.manifests,
        ds.aciinfos ++ [⟨keyChars (c.sha512sum B), im.name, now⟩]⟩) := by
    rw [WriteACI_eq_body c noFaults ds now s hpk]
    simp only [writeACIBody, hdet, hdec, hclean, hman, hks, noFaults]
  refine ⟨by rw [hrun], keyChars_eq _, rfl, ?_, ?_, hname⟩
  · rw [hrun]
    simp [ReadStream, List.lookup]
  · rw [hrun]
    simp [GetImageManifest, List.lookup, hround]

/-- Witness for C3 at the header byte `1` followed by canonical bytes
`[7, 7]`. -/
theorem c3_gzip_import_scenario_witness :
    (WriteACI cW noFaults st0 0 ⟨[1, 7, 7], none⟩).1 = .ok (keyChars (cW.sha512sum [7, 7])) ∧
    keyChars (cW.sha512sum [7, 7]) =
      hashPrefix.data ++ (hexOfBytes (cW.sha512sum [7, 7])).take lenHashKey ∧
    lenHashKey = 64 ∧
    ReadStream (WriteACI cW noFaults st0 0 ⟨[1, 7, 7], none⟩).2
      (keyChars (cW.sha512sum [7, 7])) = some [7, 7] ∧
    GetImageManifest cW (WriteACI cW noFaults st0 0 ⟨[1, 7, 7], none⟩).2
      (keyChars (cW.sha512sum [7, 7])) = .ok ⟨"example-app".data⟩ ∧
    ImageManifest.name ⟨"example-app".data⟩ = "example-app".data :=
  c3_gzip_import_scenario cW st0 0 ⟨[1, 7, 7], none⟩ [7, 7] ⟨"example-app".data⟩
    rfl rfl rfl rfl rfl (by decide) rfl

/-- C3 counterexample to the claim as stated: a successful gzip import
whose key is not `"sha512-"` followed by the first 32 hex characters of
the digest — the key carries 64 hex characters (`lenHashKey`), not 32. -/
theorem c3_first32_counterexample :
    (WriteACI cW noFaults st0 0 ⟨[1, 7, 7], none⟩).1 = .ok (keyChars (cW.sha512sum [7, 7])) ∧
    keyChars (cW.sha512sum [7, 7]) ≠
      hashPrefix.data ++ (hexOfBytes (cW.sha512sum [7, 7])).take 32 := by
  refine ⟨rfl, ?_⟩
  intro h
  have h128 : (hexOfBytes (cW.sha512sum [7, 7])).length = 128 := by decide
  rw [keyChars_eq] at h
  have hlen := congrArg List.length h
  simp [h128, lenHashKey, lenHash] at hlen

/-- C7: once the blob import has succeeded, the commits happen in the
fixed order blob import → manifest write → ACIInfo index row; a failure of
either later step makes `WriteACI` return the corresponding classified
error while the blob imported under the key stays stored, and nothing
later in the order is written without everything earlier in it. -/
theorem c7_commit_order (c : Collab) (f : Faults) (ds : StoreState) (now : Nat) (s : Stream)
    (typ : FileType) (canonical : List Nat) (im : ImageManifest) (key : List Char)
    (hclean : s.readErr = none)
    (hdet : c.detectFileType (s.bytes.take 512) = .ok typ)
    (hdec : c.decompress typ s.bytes = .ok canonical)
    (hman : c.manifestFromImage canonical = .ok im)
    (hkey : keyToString (c.sha512sum canonical) = some key)
    (himp : f.importFault = none) :
    (WriteACI c f ds now s).2.blobs = (key, canonical) :: ds.blobs ∧
    (∀ e, f.manifestFault = some e →
       WriteACI c f ds now s =
         (.error (.importingManifest e),
          ⟨(key, canonical) :: ds.blobs, ds.manifests, ds.aciinfos⟩)) ∧
    (∀ e, f.manifestFault = none → f.dbFault = some e →
       WriteACI c f ds now s =
         (.error (.writingACIInfo e),
          ⟨(key, canonical) :: ds.blobs, (key, c.marshal im) :: ds.manifests,
           ds.aciinfos⟩)) ∧
    (f.manifestFault = none → f.dbFault = none →
       WriteACI c f ds now s =
         (.ok key,
          ⟨(key, canonical) :: ds.blobs, (key, c.marshal im) :: ds.manifests,
           ds.aciinfos ++ [⟨key, im.name, now⟩]⟩)) := by
  have hpk : ∀ e, peekErr s ≠ some (.other e) := by
    rcases peekErr_clean s hclean with hp | hp <;> simp [hp]
  have hb := WriteACI_eq_body c f ds now s hpk
  refine ⟨?_, ?_, ?_, ?_⟩
  · rcases hmf : f.manifestFault with _ | e <;> rcases hdb : f.dbFault with _ | e' <;>
      rw [hb] <;>
      simp only [writeACIBody, hdet, hdec, hclean, hman, hkey, himp, hmf, hdb]
  · intro e hmf
    rw [hb]
    simp only [writeACIBody, hdet, hdec, hclean, hman, hkey, himp, hmf]
  · intro e hmf hdb
    rw [hb]
    simp only [writeACIBody, hdet, hdec, hclean, hman, hkey, himp, hmf, hdb]
  · intro hmf hdb
    rw [hb]
    simp only [writeACIBody, hdet, hdec, hclean, hman, hkey, himp, hmf, hdb]

/-- Witness for C7: with the manifest write failing, the import returns
the manifest-import error while the blob is stored. -/
theorem c7_commit_order_witness :
    (WriteACI cW ⟨none, some "boom", none⟩ st0 0 ⟨[1, 7, 7], none⟩).2.blobs =
      [(keyChars (cW.sha512sum [7, 7]), [7, 7])] ∧
    WriteACI cW ⟨none, some "boom", none⟩ st0 0 ⟨[1, 7, 7], none⟩ =
      (.error (.importingManifest "boom"),
       ⟨[(keyChars (cW.sha512sum [7, 7]), [7, 7])], [], []⟩) := by
  obtain ⟨h1, h2, _, _⟩ :=
    c7_commit_order cW ⟨none, some "boom", none⟩ st0 0 ⟨[1, 7, 7], none⟩
      .gzip [7, 7] ⟨"example-app".data⟩ (keyChars (cW.sha512sum [7, 7]))
      rfl rfl rfl rfl (by rw [keyToString, if_pos (by decide)]) rfl
  exact ⟨by rw [h1]; rfl, h2 "boom" rfl⟩

/-! ## `NewStore` and the schema-version guard (cas.go lines 64-116) -/

/-- Modelled from the spec: the persistent state of the metadata index as
the schema guard observes it — whether the db has ever been populated
(`dbIsPopulated`, defined outside this file) and the stored SchemaVersion
(`getDBVersion`, defined outside this file). -/
structure DBState where
  populated : Bool
  version : Nat
  deriving DecidableEq, Repr

/-- The schema-guard errors of `NewStore` (cas.go lines 103 and 106):
stored version lesser than, or greater than, the version the running code
expects. -/
inductive OpenError where
  | versionLesser (version dbVersion : Nat)
  | versionGreater (version dbVersion : Nat)
  deriving DecidableEq, Repr

/-- `NewStore`'s transaction body (cas.go lines 82-109), with the code's
expected version `dbVersion` (a package constant defined outside this
file) passed explicitly. Modelled from the spec where the source is
outside this file: populating a fresh db runs the schema-creation
statements, which record the running code's version ("written once at
first initialization"). The version comparisons are cas.go lines 101-107;
on success `NewStore` returns the ready store handle, and on error it
returns no store, so no read/write can succeed through it. -/
def NewStore (db : DBState) (dbVersion : Nat) : Except OpenError DBState :=
  let db' : DBState := if db.populated then db else ⟨true, dbVersion⟩
  if db'.version < dbVersion then .error (.versionLesser db'.version dbVersion)
  else if db'.version > dbVersion then .error (.versionGreater db'.version dbVersion)
  else .ok db'

/-- C6: opening a store over an already-populated metadata index fails in
both directions of schema mismatch — stored version strictly less than or
strictly greater than the expected one — returning an error and no store
handle, and it proceeds exactly when the versions are equal. -/
theorem c6_schema_guard (db : DBState) (dbVersion : Nat) (hpop : db.populated = true) :
    (db.version < dbVersion →
       NewStore db dbVersion = .error (.versionLesser db.version dbVersion)) ∧
    (dbVersion < db.version →
       NewStore db dbVersion = .error (.versionGreater db.version dbVersion)) ∧
    (db.version = dbVersion → NewStore db dbVersion = .ok db) ∧
    (∀ st, NewStore db dbVersion = .ok st → db.version = dbVersion) := by
  have hdb : (if db.populated then db else ⟨true, dbVersion⟩) = db := if_pos hpop
  refine ⟨?_, ?_, ?_, ?_⟩
  · intro hlt
    rw [NewStore]
    simp only [hdb]
    rw [if_pos hlt]
  · intro hgt
    rw [NewStore]
    simp only [hdb]
    rw [if_neg (by omega), if_pos hgt]
  · intro heq
    rw [NewStore]
    simp only [hdb]
    rw [if_neg (by omega), if_neg (by omega)]
  · intro st h
    rw [NewStore] at h
    simp only [hdb] at h
    by_cases hlt : db.version < dbVersion
    · rw [if_pos hlt] at h
      cases h
    · rw [if_neg hlt] at h
      by_cases hgt : db.version > dbVersion
      · rw [if_pos hgt] at h
        cases h
      · omega

/-- Witness for C6 at stored version 1 against expected versions 2, 0
and 1. -/
theorem c6_schema_guard_witness :
    NewStore ⟨true, 1⟩ 2 = .error (.versionLesser 1 2) ∧
    NewStore ⟨true, 1⟩ 0 = .error (.versionGreater 1 0) ∧
    NewStore ⟨true, 1⟩ 1 = .ok ⟨true, 1⟩ :=
  ⟨(c6_schema_guard ⟨true, 1⟩ 2 rfl).1 (by decide),
   (c6_schema_guard ⟨true, 1⟩ 0 rfl).2.1 (by decide),
   (c6_schema_guard ⟨true, 1⟩ 1 rfl).2.2.1 rfl⟩

end Cas
